import Mathlib

/-!
Shallow embedding of the ODE integrator library in stronzos.ipynb.

Each integrator in the notebook initialises lists with the initial time and
state, then runs a loop of n passes (Python range(n), which is empty for
negative n); each pass computes the next state from the current one, advances
t by h, and appends the new time and state.  We embed each loop body as a
step function on the tuple of loop variables and each integrator as the list
of all intermediate states of that step function, projected componentwise.

Scalar arithmetic is an arbitrary field; vector states (numpy arrays in the
source) are a module over that field, with elementwise operations translated
to module operations.  The step count n is an integer, as in Python, and the
loop runs Int.toNat n passes, matching range(n).
-/

namespace Stronzos

/-- The list of successive states after each of n passes of a loop body. -/
def iterSteps {σ : Type} (step : σ → σ) : ℕ → σ → List σ
  | 0, _ => []
  | n + 1, s => step s :: iterSteps step n (step s)

/-- The initial state followed by the state after each loop pass: the full
trajectory of loop states, of length n + 1. -/
def trajOf {σ : Type} (step : σ → σ) (n : ℕ) (s : σ) : List σ :=
  s :: iterSteps step n s

variable {α : Type} [Field α] {S : Type} [AddCommGroup S] [Module α S]

/-- Loop body of euler_method: y = y + h * f(t, y); t = t + h. -/
def euler_state (f : α → α → α) (h : α) (s : α × α) : α × α :=
  (s.1 + h, s.2 + h * f s.1 s.2)

/-- euler_method(f, y0, t0, h, n): t_values = [t0]; y_values = [y0]; then n
loop passes appending the updated t and y.  Returns (t_values, y_values). -/
def euler_method (f : α → α → α) (y0 t0 h : α) (n : ℤ) : List α × List α :=
  let traj := trajOf (euler_state f h) n.toNat (t0, y0)
  (traj.map Prod.fst, traj.map Prod.snd)

/-- Loop body of heun_method: y_predictor = y + h * f(t, y);
y = y + (h / 2) * (f(t, y) + f(t + h, y_predictor)); t = t + h. -/
def heun_state (f : α → α → α) (h : α) (s : α × α) : α × α :=
  let y_predictor := s.2 + h * f s.1 s.2
  (s.1 + h, s.2 + h / 2 * (f s.1 s.2 + f (s.1 + h) y_predictor))

/-- heun_method(f, y0, t0, h, n): predictor-corrector loop over n passes. -/
def heun_method (f : α → α → α) (y0 t0 h : α) (n : ℤ) : List α × List α :=
  let traj := trajOf (heun_state f h) n.toNat (t0, y0)
  (traj.map Prod.fst, traj.map Prod.snd)

/-- Loop body of runge_kutta_method (scalar RK4): k1 = f(t, y);
k2 = f(t + h/2, y + k1*h/2); k3 = f(t + h/2, y + k2*h/2);
k4 = f(t + h, y + k3*h); y = y + (k1 + 2*k2 + 2*k3 + k4) * h / 6; t = t + h. -/
def runge_kutta_state (f : α → α → α) (h : α) (s : α × α) : α × α :=
  let k1 := f s.1 s.2
  let k2 := f (s.1 + h / 2) (s.2 + k1 * h / 2)
  let k3 := f (s.1 + h / 2) (s.2 + k2 * h / 2)
  let k4 := f (s.1 + h) (s.2 + k3 * h)
  (s.1 + h, s.2 + (k1 + 2 * k2 + 2 * k3 + k4) * h / 6)

/-- runge_kutta_method(f, y0, t0, h, n): scalar 4th order Runge-Kutta. -/
def runge_kutta_method (f : α → α → α) (y0 t0 h : α) (n : ℤ) : List α × List α :=
  let traj := trajOf (runge_kutta_state f h) n.toNat (t0, y0)
  (traj.map Prod.fst, traj.map Prod.snd)

/-- Loop body of midpoint_method: k1 = h * f(t, y);
k2 = h * f(t + h/2, y + k1/2); y = y + k2; t = t + h. -/
def midpoint_state (f : α → α → α) (h : α) (s : α × α) : α × α :=
  let k1 := h * f s.1 s.2
  let k2 := h * f (s.1 + h / 2) (s.2 + k1 / 2)
  (s.1 + h, s.2 + k2)

/-- midpoint_method(f, y0, t0, h, n): midpoint (modified Euler) loop. -/
def midpoint_method (f : α → α → α) (y0 t0 h : α) (n : ℤ) : List α × List α :=
  let traj := trajOf (midpoint_state f h) n.toNat (t0, y0)
  (traj.map Prod.fst, traj.map Prod.snd)

/-- Loop body of verlet_method_system on the tuple (t, y, v):
y_next = y + h * v + 0.5 * h**2 * f(t, y, v);
a_next = f(t + h, y_next, v);
v_next = v + 0.5 * h * (f(t, y, v) + a_next);
t += h; y, v = y_next, v_next. -/
def verlet_state (f : α → S → S → S) (h : α) (s : α × S × S) : α × S × S :=
  let t := s.1
  let y := s.2.1
  let v := s.2.2
  let y_next := y + h • v + ((1 : α) / 2 * h ^ 2) • f t y v
  let a_next := f (t + h) y_next v
  let v_next := v + ((1 : α) / 2 * h) • (f t y v + a_next)
  (t + h, y_next, v_next)

/-- verlet_method_system(f, y0, v0, t0, h, n): second-order integrator;
returns (t_values, y_values, v_values). -/
def verlet_method_system (f : α → S → S → S) (y0 v0 : S) (t0 h : α) (n : ℤ) :
    List α × List S × List S :=
  let traj := trajOf (verlet_state f h) n.toNat (t0, y0, v0)
  (traj.map (fun s => s.1), traj.map (fun s => s.2.1), traj.map (fun s => s.2.2))

/-- Loop body of euler_method_system: y = y + h * f(t, y) on vectors. -/
def euler_system_state (f : α → S → S) (h : α) (s : α × S) : α × S :=
  (s.1 + h, s.2 + h • f s.1 s.2)

/-- euler_method_system(f, y0, t0, h, n): Euler on a vector state. -/
def euler_method_system (f : α → S → S) (y0 : S) (t0 h : α) (n : ℤ) :
    List α × List S :=
  let traj := trajOf (euler_system_state f h) n.toNat (t0, y0)
  (traj.map Prod.fst, traj.map Prod.snd)

/-- Loop body of runge_kutta_method_system (vector RK4): k1 = h * f(t, y);
k2 = h * f(t + h/2, y + k1/2); k3 = h * f(t + h/2, y + k2/2);
k4 = h * f(t + h, y + k3); y = y + (k1 + 2*k2 + 2*k3 + k4) / 6; t = t + h. -/
def runge_kutta_system_state (f : α → S → S) (h : α) (s : α × S) : α × S :=
  let k1 := h • f s.1 s.2
  let k2 := h • f (s.1 + h / 2) (s.2 + ((1 : α) / 2) • k1)
  let k3 := h • f (s.1 + h / 2) (s.2 + ((1 : α) / 2) • k2)
  let k4 := h • f (s.1 + h) (s.2 + k3)
  (s.1 + h, s.2 + ((1 : α) / 6) • (k1 + (2 : α) • k2 + (2 : α) • k3 + k4))

/-- runge_kutta_method_system(f, y0, t0, h, n): vector 4th order Runge-Kutta. -/
def runge_kutta_method_system (f : α → S → S) (y0 : S) (t0 h : α) (n : ℤ) :
    List α × List S :=
  let traj := trajOf (runge_kutta_system_state f h) n.toNat (t0, y0)
  (traj.map Prod.fst, traj.map Prod.snd)

/-- An instrumented call to the derivative f: returns the value together with
the incremented call counter.  Used to count how many times each loop body
invokes f. -/
def fCall (f : α → α → α) (t y : α) (c : ℕ) : α × ℕ :=
  (f t y, c + 1)

/-- euler_method loop body with a call counter threaded through: the body has
exactly one call site for f (in the y update). -/
def euler_state_traced (f : α → α → α) (h : α) (s : α × α × ℕ) : α × α × ℕ :=
  let p := fCall f s.1 s.2.1 s.2.2
  (s.1 + h, s.2.1 + h * p.1, p.2)

/-- euler_method with its total number of calls to f. -/
def euler_method_traced (f : α → α → α) (y0 t0 h : α) (n : ℤ) :
    (List α × List α) × ℕ :=
  let traj := trajOf (euler_state_traced f h) n.toNat (t0, y0, 0)
  ((traj.map (fun s => s.1), traj.map (fun s => s.2.1)),
    ((euler_state_traced f h)^[n.toNat] (t0, y0, 0)).2.2)

/-- heun_method loop body with a call counter threaded through: the body has
three call sites for f — f(t, y) in the predictor line, and f(t, y) again plus
f(t + h, y_predictor) in the corrector line. -/
def heun_state_traced (f : α → α → α) (h : α) (s : α × α × ℕ) : α × α × ℕ :=
  let p1 := fCall f s.1 s.2.1 s.2.2
  let y_predictor := s.2.1 + h * p1.1
  let p2 := fCall f s.1 s.2.1 p1.2
  let p3 := fCall f (s.1 + h) y_predictor p2.2
  (s.1 + h, s.2.1 + h / 2 * (p2.1 + p3.1), p3.2)

/-- heun_method with its total number of calls to f. -/
def heun_method_traced (f : α → α → α) (y0 t0 h : α) (n : ℤ) :
    (List α × List α) × ℕ :=
  let traj := trajOf (heun_state_traced f h) n.toNat (t0, y0, 0)
  ((traj.map (fun s => s.1), traj.map (fun s => s.2.1)),
    ((heun_state_traced f h)^[n.toNat] (t0, y0, 0)).2.2)

/-! ### Generic lemmas about the loop skeleton -/

lemma iterSteps_length {σ : Type} (step : σ → σ) :
    ∀ (n : ℕ) (s : σ), (iterSteps step n s).length = n
  | 0, _ => rfl
  | n + 1, s => by simp [iterSteps, iterSteps_length step n]

lemma trajOf_length {σ : Type} (step : σ → σ) (n : ℕ) (s : σ) :
    (trajOf step n s).length = n + 1 := by
  simp [trajOf, iterSteps_length]

/-- Entry i of a loop trajectory, projected through g, is g of the i-th
iterate of the step function. -/
lemma trajOf_map_getD {σ β : Type} (step : σ → σ) (g : σ → β) (d : β) :
    ∀ (n i : ℕ), i ≤ n → ∀ s : σ,
      ((trajOf step n s).map g).getD i d = g (step^[i] s)
  | _, 0, _, _ => rfl
  | n + 1, i + 1, hi, s => by
    rw [Function.iterate_succ_apply]
    have ih := trajOf_map_getD step g d n i (Nat.succ_le_succ_iff.mp hi) (step s)
    simpa [trajOf, iterSteps] using ih
  | 0, i + 1, hi, s => absurd hi (by simp)

/-- If a projection of the state advances by h at every step, then after i
steps it has advanced by i * h. -/
lemma iterate_affine {σ : Type} (step : σ → σ) (p : σ → α) (h : α)
    (hp : ∀ s, p (step s) = p s + h) :
    ∀ (i : ℕ) (s : σ), p (step^[i] s) = p s + i * h
  | 0, s => by simp
  | i + 1, s => by
    rw [Function.iterate_succ_apply', hp, iterate_affine step p h hp i s]
    push_cast
    ring

/-- If a projection of the state is preserved by the step, it is preserved by
any number of steps. -/
lemma iterate_invariant {σ β : Type} (step : σ → σ) (p : σ → β)
    (hp : ∀ s, p (step s) = p s) :
    ∀ (i : ℕ) (s : σ), p (step^[i] s) = p s
  | 0, _ => rfl
  | i + 1, s => by
    rw [Function.iterate_succ_apply', hp, iterate_invariant step p hp i s]

/-- If a natural-number projection of the state grows by k at every step, then
after i steps it has grown by i * k. -/
lemma iterate_count {σ : Type} (step : σ → σ) (p : σ → ℕ) (k : ℕ)
    (hp : ∀ s, p (step s) = p s + k) :
    ∀ (i : ℕ) (s : σ), p (step^[i] s) = p s + i * k
  | 0, s => by simp
  | i + 1, s => by
    rw [Function.iterate_succ_apply', hp, iterate_count step p k hp i s]
    ring

lemma iterSteps_congr {σ : Type} {s1 s2 : σ → σ} (h : ∀ s, s1 s = s2 s) :
    ∀ (n : ℕ) (s : σ), iterSteps s1 n s = iterSteps s2 n s
  | 0, _ => rfl
  | n + 1, s => by
    simp only [iterSteps, h s, iterSteps_congr h n (s2 s)]

/-! ### Time sequences: every method accumulates t additively -/

lemma euler_times_getD (f : α → α → α) (y0 t0 h : α) (n i : ℕ) (hi : i ≤ n) :
    (euler_method f y0 t0 h ↑n).1.getD i 0 = t0 + i * h := by
  simp only [euler_method, Int.toNat_natCast]
  rw [trajOf_map_getD _ _ _ n i hi]
  exact iterate_affine _ Prod.fst h (fun s => rfl) i (t0, y0)

lemma heun_times_getD (f : α → α → α) (y0 t0 h : α) (n i : ℕ) (hi : i ≤ n) :
    (heun_method f y0 t0 h ↑n).1.getD i 0 = t0 + i * h := by
  simp only [heun_method, Int.toNat_natCast]
  rw [trajOf_map_getD _ _ _ n i hi]
  exact iterate_affine _ Prod.fst h (fun s => rfl) i (t0, y0)

lemma runge_kutta_times_getD (f : α → α → α) (y0 t0 h : α) (n i : ℕ)
    (hi : i ≤ n) :
    (runge_kutta_method f y0 t0 h ↑n).1.getD i 0 = t0 + i * h := by
  simp only [runge_kutta_method, Int.toNat_natCast]
  rw [trajOf_map_getD _ _ _ n i hi]
  exact iterate_affine _ Prod.fst h (fun s => rfl) i (t0, y0)

lemma midpoint_times_getD (f : α → α → α) (y0 t0 h : α) (n i : ℕ)
    (hi : i ≤ n) :
    (midpoint_method f y0 t0 h ↑n).1.getD i 0 = t0 + i * h := by
  simp only [midpoint_method, Int.toNat_natCast]
  rw [trajOf_map_getD _ _ _ n i hi]
  exact iterate_affine _ Prod.fst h (fun s => rfl) i (t0, y0)

lemma euler_system_times_getD (f : α → S → S) (y0 : S) (t0 h : α) (n i : ℕ)
    (hi : i ≤ n) :
    (euler_method_system f y0 t0 h ↑n).1.getD i 0 = t0 + i * h := by
  simp only [euler_method_system, Int.toNat_natCast]
  rw [trajOf_map_getD _ _ _ n i hi]
  exact iterate_affine _ Prod.fst h (fun s => rfl) i (t0, y0)

lemma runge_kutta_system_times_getD (f : α → S → S) (y0 : S) (t0 h : α)
    (n i : ℕ) (hi : i ≤ n) :
    (runge_kutta_method_system f y0 t0 h ↑n).1.getD i 0 = t0 + i * h := by
  simp only [runge_kutta_method_system, Int.toNat_natCast]
  rw [trajOf_map_getD _ _ _ n i hi]
  exact iterate_affine _ Prod.fst h (fun s => rfl) i (t0, y0)

lemma verlet_times_getD (f : α → S → S → S) (y0 v0 : S) (t0 h : α) (n i : ℕ)
    (hi : i ≤ n) :
    (verlet_method_system f y0 v0 t0 h ↑n).1.getD i 0 = t0 + i * h := by
  simp only [verlet_method_system, Int.toNat_natCast]
  rw [trajOf_map_getD _ _ _ n i hi]
  exact iterate_affine (verlet_state f h) (fun s => s.1) h (fun s => rfl) i
    (t0, y0, v0)

/-! ### State sequences as iterates of the step functions -/

lemma euler_states_getD (f : α → α → α) (y0 t0 h : α) (n i : ℕ) (hi : i ≤ n) :
    (euler_method f y0 t0 h ↑n).2.getD i 0 = ((euler_state f h)^[i] (t0, y0)).2 := by
  simp only [euler_method, Int.toNat_natCast]
  exact trajOf_map_getD _ _ _ n i hi _

lemma heun_states_getD (f : α → α → α) (y0 t0 h : α) (n i : ℕ) (hi : i ≤ n) :
    (heun_method f y0 t0 h ↑n).2.getD i 0 = ((heun_state f h)^[i] (t0, y0)).2 := by
  simp only [heun_method, Int.toNat_natCast]
  exact trajOf_map_getD _ _ _ n i hi _

lemma runge_kutta_states_getD (f : α → α → α) (y0 t0 h : α) (n i : ℕ)
    (hi : i ≤ n) :
    (runge_kutta_method f y0 t0 h ↑n).2.getD i 0 =
      ((runge_kutta_state f h)^[i] (t0, y0)).2 := by
  simp only [runge_kutta_method, Int.toNat_natCast]
  exact trajOf_map_getD _ _ _ n i hi _

lemma midpoint_states_getD (f : α → α → α) (y0 t0 h : α) (n i : ℕ)
    (hi : i ≤ n) :
    (midpoint_method f y0 t0 h ↑n).2.getD i 0 =
      ((midpoint_state f h)^[i] (t0, y0)).2 := by
  simp only [midpoint_method, Int.toNat_natCast]
  exact trajOf_map_getD _ _ _ n i hi _

lemma euler_system_states_getD (f : α → S → S) (y0 : S) (t0 h : α) (n i : ℕ)
    (hi : i ≤ n) :
    (euler_method_system f y0 t0 h ↑n).2.getD i 0 =
      ((euler_system_state f h)^[i] (t0, y0)).2 := by
  simp only [euler_method_system, Int.toNat_natCast]
  exact trajOf_map_getD _ _ _ n i hi _

lemma runge_kutta_system_states_getD (f : α → S → S) (y0 : S) (t0 h : α)
    (n i : ℕ) (hi : i ≤ n) :
    (runge_kutta_method_system f y0 t0 h ↑n).2.getD i 0 =
      ((runge_kutta_system_state f h)^[i] (t0, y0)).2 := by
  simp only [runge_kutta_method_system, Int.toNat_natCast]
  exact trajOf_map_getD _ _ _ n i hi _

lemma verlet_positions_getD (f : α → S → S → S) (y0 v0 : S) (t0 h : α)
    (n i : ℕ) (hi : i ≤ n) :
    (verlet_method_system f y0 v0 t0 h ↑n).2.1.getD i 0 =
      ((verlet_state f h)^[i] (t0, y0, v0)).2.1 := by
  simp only [verlet_method_system, Int.toNat_natCast]
  exact trajOf_map_getD _ _ _ n i hi _

lemma verlet_velocities_getD (f : α → S → S → S) (y0 v0 : S) (t0 h : α)
    (n i : ℕ) (hi : i ≤ n) :
    (verlet_method_system f y0 v0 t0 h ↑n).2.2.getD i 0 =
      ((verlet_state f h)^[i] (t0, y0, v0)).2.2 := by
  simp only [verlet_method_system, Int.toNat_natCast]
  exact trajOf_map_getD _ _ _ n i hi _

/-! ### Claim theorems -/

/-- C1: for every method, every derivative function, every initial condition,
every t0, every h and every non-negative integer step count n, the returned
sequences all have length n + 1, times[0] = t0, states[0] = y0, and for
verlet_method_system also velocities[0] = v0. -/
theorem c1_lengths_and_initial_values {α : Type} [Field α] {S : Type}
    [AddCommGroup S] [Module α S] (f : α → α → α) (F : α → S → S)
    (G : α → S → S → S) (y0 t0 h : α) (Y0 V0 : S) (n : ℕ) :
    ((euler_method f y0 t0 h ↑n).1.length = n + 1 ∧
      (euler_method f y0 t0 h ↑n).2.length = n + 1 ∧
      (euler_method f y0 t0 h ↑n).1.getD 0 0 = t0 ∧
      (euler_method f y0 t0 h ↑n).2.getD 0 0 = y0) ∧
    ((heun_method f y0 t0 h ↑n).1.length = n + 1 ∧
      (heun_method f y0 t0 h ↑n).2.length = n + 1 ∧
      (heun_method f y0 t0 h ↑n).1.getD 0 0 = t0 ∧
      (heun_method f y0 t0 h ↑n).2.getD 0 0 = y0) ∧
    ((runge_kutta_method f y0 t0 h ↑n).1.length = n + 1 ∧
      (runge_kutta_method f y0 t0 h ↑n).2.length = n + 1 ∧
      (runge_kutta_method f y0 t0 h ↑n).1.getD 0 0 = t0 ∧
      (runge_kutta_method f y0 t0 h ↑n).2.getD 0 0 = y0) ∧
    ((midpoint_method f y0 t0 h ↑n).1.length = n + 1 ∧
      (midpoint_method f y0 t0 h ↑n).2.length = n + 1 ∧
      (midpoint_method f y0 t0 h ↑n).1.getD 0 0 = t0 ∧
      (midpoint_method f y0 t0 h ↑n).2.getD 0 0 = y0) ∧
    ((euler_method_system F Y0 t0 h ↑n).1.length = n + 1 ∧
      (euler_method_system F Y0 t0 h ↑n).2.length = n + 1 ∧
      (euler_method_system F Y0 t0 h ↑n).1.getD 0 0 = t0 ∧
      (euler_method_system F Y0 t0 h ↑n).2.getD 0 0 = Y0) ∧
    ((runge_kutta_method_system F Y0 t0 h ↑n).1.length = n + 1 ∧
      (runge_kutta_method_system F Y0 t0 h ↑n).2.length = n + 1 ∧
      (runge_kutta_method_system F Y0 t0 h ↑n).1.getD 0 0 = t0 ∧
      (runge_kutta_method_system F Y0 t0 h ↑n).2.getD 0 0 = Y0) ∧
    ((verlet_method_system G Y0 V0 t0 h ↑n).1.length = n + 1 ∧
      (verlet_method_system G Y0 V0 t0 h ↑n).2.1.length = n + 1 ∧
      (verlet_method_system G Y0 V0 t0 h ↑n).2.2.length = n + 1 ∧
      (verlet_method_system G Y0 V0 t0 h ↑n).1.getD 0 0 = t0 ∧
      (verlet_method_system G Y0 V0 t0 h ↑n).2.1.getD 0 0 = Y0 ∧
      (verlet_method_system G Y0 V0 t0 h ↑n).2.2.getD 0 0 = V0) := by
  simp [euler_method, heun_method, runge_kutta_method, midpoint_method,
    euler_method_system, runge_kutta_method_system, verlet_method_system,
    trajOf, iterSteps_length]

/-- C2: for every method the time sequence satisfies, in exact arithmetic,
times[i] = t0 + i * h for every i in [0, n], and consequently
times[i] - times[i-1] = h for every i in [1, n]. -/
theorem c2_times_additive {α : Type} [Field α] {S : Type}
    [AddCommGroup S] [Module α S] (f : α → α → α) (F : α → S → S)
    (G : α → S → S → S) (y0 t0 h : α) (Y0 V0 : S) (n : ℕ) :
    (∀ i : ℕ, i ≤ n →
      (euler_method f y0 t0 h ↑n).1.getD i 0 = t0 + i * h ∧
      (heun_method f y0 t0 h ↑n).1.getD i 0 = t0 + i * h ∧
      (runge_kutta_method f y0 t0 h ↑n).1.getD i 0 = t0 + i * h ∧
      (midpoint_method f y0 t0 h ↑n).1.getD i 0 = t0 + i * h ∧
      (euler_method_system F Y0 t0 h ↑n).1.getD i 0 = t0 + i * h ∧
      (runge_kutta_method_system F Y0 t0 h ↑n).1.getD i 0 = t0 + i * h ∧
      (verlet_method_system G Y0 V0 t0 h ↑n).1.getD i 0 = t0 + i * h) ∧
    (∀ i : ℕ, 1 ≤ i → i ≤ n →
      (euler_method f y0 t0 h ↑n).1.getD i 0 -
        (euler_method f y0 t0 h ↑n).1.getD (i - 1) 0 = h ∧
      (heun_method f y0 t0 h ↑n).1.getD i 0 -
        (heun_method f y0 t0 h ↑n).1.getD (i - 1) 0 = h ∧
      (runge_kutta_method f y0 t0 h ↑n).1.getD i 0 -
        (runge_kutta_method f y0 t0 h ↑n).1.getD (i - 1) 0 = h ∧
      (midpoint_method f y0 t0 h ↑n).1.getD i 0 -
        (midpoint_method f y0 t0 h ↑n).1.getD (i - 1) 0 = h ∧
      (euler_method_system F Y0 t0 h ↑n).1.getD i 0 -
        (euler_method_system F Y0 t0 h ↑n).1.getD (i - 1) 0 = h ∧
      (runge_kutta_method_system F Y0 t0 h ↑n).1.getD i 0 -
        (runge_kutta_method_system F Y0 t0 h ↑n).1.getD (i - 1) 0 = h ∧
      (verlet_method_system G Y0 V0 t0 h ↑n).1.getD i 0 -
        (verlet_method_system G Y0 V0 t0 h ↑n).1.getD (i - 1) 0 = h) := by
  constructor
  · intro i hi
    exact ⟨euler_times_getD f y0 t0 h n i hi, heun_times_getD f y0 t0 h n i hi,
      runge_kutta_times_getD f y0 t0 h n i hi,
      midpoint_times_getD f y0 t0 h n i hi,
      euler_system_times_getD F Y0 t0 h n i hi,
      runge_kutta_system_times_getD F Y0 t0 h n i hi,
      verlet_times_getD G Y0 V0 t0 h n i hi⟩
  · intro i h1 hi
    obtain ⟨j, rfl⟩ : ∃ j, i = j + 1 := ⟨i - 1, (Nat.succ_pred_eq_of_pos h1).symm⟩
    have hj : j ≤ n := le_trans (Nat.le_succ j) hi
    refine ⟨?_, ?_, ?_, ?_, ?_, ?_, ?_⟩
    all_goals
      first
      | (rw [Nat.add_sub_cancel, euler_times_getD f y0 t0 h n _ hi,
          euler_times_getD f y0 t0 h n j hj]; push_cast; ring)
      | (rw [Nat.add_sub_cancel, heun_times_getD f y0 t0 h n _ hi,
          heun_times_getD f y0 t0 h n j hj]; push_cast; ring)
      | (rw [Nat.add_sub_cancel, runge_kutta_times_getD f y0 t0 h n _ hi,
          runge_kutta_times_getD f y0 t0 h n j hj]; push_cast; ring)
      | (rw [Nat.add_sub_cancel, midpoint_times_getD f y0 t0 h n _ hi,
          midpoint_times_getD f y0 t0 h n j hj]; push_cast; ring)
      | (rw [Nat.add_sub_cancel, euler_system_times_getD F Y0 t0 h n _ hi,
          euler_system_times_getD F Y0 t0 h n j hj]; push_cast; ring)
      | (rw [Nat.add_sub_cancel, runge_kutta_system_times_getD F Y0 t0 h n _ hi,
          runge_kutta_system_times_getD F Y0 t0 h n j hj]; push_cast; ring)
      | (rw [Nat.add_sub_cancel, verlet_times_getD G Y0 V0 t0 h n _ hi,
          verlet_times_getD G Y0 V0 t0 h n j hj]; push_cast; ring)

/-- C2 witness: concrete instance over the rationals with h = 1, n = 2, i = 1. -/
theorem c2_times_additive_witness :
    (euler_method (α := ℚ) (fun _ y => y) 1 0 1 ((2 : ℕ) : ℤ)).1.getD 1 0 =
        0 + (1 : ℕ) * 1 ∧
      (euler_method (α := ℚ) (fun _ y => y) 1 0 1 ((2 : ℕ) : ℤ)).1.getD 1 0 -
        (euler_method (α := ℚ) (fun _ y => y) 1 0 1 ((2 : ℕ) : ℤ)).1.getD
          (1 - 1) 0 = 1 := by
  have h := c2_times_additive (α := ℚ) (S := ℚ) (fun _ y => y) (fun _ y => y)
    (fun _ _ _ => 0) 1 0 1 0 0 2
  exact ⟨(h.1 1 (by decide)).1, (h.2 1 (by decide) (by decide)).1⟩

/-- Over a field the vector RK4 loop body (k_i pre-multiplied by h) computes
exactly the same next state as the scalar RK4 loop body (k_i post-multiplied
by h). -/
lemma runge_kutta_state_eq_system (f : α → α → α) (h : α) (s : α × α) :
    runge_kutta_system_state f h s = runge_kutta_state f h s := by
  obtain ⟨t, y⟩ := s
  simp only [runge_kutta_state, runge_kutta_system_state, smul_eq_mul]
  have e1 : y + 1 / 2 * (h * f t y) = y + f t y * h / 2 := by ring
  rw [e1]
  have e2 : y + 1 / 2 * (h * f (t + h / 2) (y + f t y * h / 2)) =
      y + f (t + h / 2) (y + f t y * h / 2) * h / 2 := by ring
  rw [e2]
  have e3 : y + h * f (t + h / 2)
        (y + f (t + h / 2) (y + f t y * h / 2) * h / 2) =
      y + f (t + h / 2) (y + f (t + h / 2) (y + f t y * h / 2) * h / 2) * h := by
    ring
  rw [e3]
  rw [Prod.mk.injEq]
  exact ⟨rfl, by ring⟩

/-- C3: runge_kutta_method (scalar, h post-multiplied) and
runge_kutta_method_system (vector, h pre-multiplied) are algebraically
equivalent: on the common state type, a field in exact arithmetic, they
produce identical trajectories for every f, y0, t0, h, n. -/
theorem c3_rk4_scalar_vector_equivalent {α : Type} [Field α] (f : α → α → α)
    (y0 t0 h : α) (n : ℤ) :
    runge_kutta_method_system f y0 t0 h n = runge_kutta_method f y0 t0 h n := by
  unfold runge_kutta_method_system runge_kutta_method trajOf
  rw [iterSteps_congr (runge_kutta_state_eq_system f h) n.toNat]

lemma verlet_times_getD_raw (f : α → S → S → S) (y0 v0 : S) (t0 h : α)
    (n i : ℕ) (hi : i ≤ n) :
    (verlet_method_system f y0 v0 t0 h ↑n).1.getD i 0 =
      ((verlet_state f h)^[i] (t0, y0, v0)).1 := by
  simp only [verlet_method_system, Int.toNat_natCast]
  exact trajOf_map_getD _ _ _ n i hi _

/-- C4: every verlet_method_system step from the state (y, v, t) at index i
produces, at index i + 1, the time t + h, the position
y + h*v + 0.5*h^2*f(t, y, v), and the velocity
v + 0.5*h*(f(t, y, v) + a_next) where a_next = f(t + h, y_next, v) is the
acceleration evaluated at the new position but with the old velocity. -/
theorem c4_verlet_step_rule {α : Type} [Field α] {S : Type} [AddCommGroup S]
    [Module α S] (f : α → S → S → S) (y0 v0 : S) (t0 h : α) (n i : ℕ)
    (hi : i < n) :
    (verlet_method_system f y0 v0 t0 h ↑n).1.getD (i + 1) 0 =
      (verlet_method_system f y0 v0 t0 h ↑n).1.getD i 0 + h ∧
    (verlet_method_system f y0 v0 t0 h ↑n).2.1.getD (i + 1) 0 =
      (verlet_method_system f y0 v0 t0 h ↑n).2.1.getD i 0
        + h • (verlet_method_system f y0 v0 t0 h ↑n).2.2.getD i 0
        + ((1 : α) / 2 * h ^ 2) •
            f ((verlet_method_system f y0 v0 t0 h ↑n).1.getD i 0)
              ((verlet_method_system f y0 v0 t0 h ↑n).2.1.getD i 0)
              ((verlet_method_system f y0 v0 t0 h ↑n).2.2.getD i 0) ∧
    (verlet_method_system f y0 v0 t0 h ↑n).2.2.getD (i + 1) 0 =
      (verlet_method_system f y0 v0 t0 h ↑n).2.2.getD i 0
        + ((1 : α) / 2 * h) •
            (f ((verlet_method_system f y0 v0 t0 h ↑n).1.getD i 0)
                ((verlet_method_system f y0 v0 t0 h ↑n).2.1.getD i 0)
                ((verlet_method_system f y0 v0 t0 h ↑n).2.2.getD i 0)
              + f ((verlet_method_system f y0 v0 t0 h ↑n).1.getD i 0 + h)
                  ((verlet_method_system f y0 v0 t0 h ↑n).2.1.getD i 0
                    + h • (verlet_method_system f y0 v0 t0 h ↑n).2.2.getD i 0
                    + ((1 : α) / 2 * h ^ 2) •
                        f ((verlet_method_system f y0 v0 t0 h ↑n).1.getD i 0)
                          ((verlet_method_system f y0 v0 t0 h ↑n).2.1.getD i 0)
                          ((verlet_method_system f y0 v0 t0 h ↑n).2.2.getD i 0))
                  ((verlet_method_system f y0 v0 t0 h ↑n).2.2.getD i 0)) := by
  have hi1 : i + 1 ≤ n := hi
  have hin : i ≤ n := le_of_lt hi
  rw [verlet_times_getD_raw f y0 v0 t0 h n (i + 1) hi1,
    verlet_times_getD_raw f y0 v0 t0 h n i hin,
    verlet_positions_getD f y0 v0 t0 h n (i + 1) hi1,
    verlet_positions_getD f y0 v0 t0 h n i hin,
    verlet_velocities_getD f y0 v0 t0 h n (i + 1) hi1,
    verlet_velocities_getD f y0 v0 t0 h n i hin,
    Function.iterate_succ_apply']
  exact ⟨rfl, rfl, rfl⟩

/-- C4 witness: concrete instance over the rationals with one step. -/
theorem c4_verlet_step_rule_witness :
    (verlet_method_system (α := ℚ) (S := ℚ) (fun t y v => t + y + v) 1 2 0 1
        ((1 : ℕ) : ℤ)).2.1.getD (0 + 1) 0 =
      (verlet_method_system (α := ℚ) (S := ℚ) (fun t y v => t + y + v) 1 2 0 1
          ((1 : ℕ) : ℤ)).2.1.getD 0 0
        + (1 : ℚ) • (verlet_method_system (α := ℚ) (S := ℚ)
            (fun t y v => t + y + v) 1 2 0 1 ((1 : ℕ) : ℤ)).2.2.getD 0 0
        + ((1 : ℚ) / 2 * 1 ^ 2) •
            ((verlet_method_system (α := ℚ) (S := ℚ) (fun t y v => t + y + v)
                1 2 0 1 ((1 : ℕ) : ℤ)).1.getD 0 0
              + (verlet_method_system (α := ℚ) (S := ℚ) (fun t y v => t + y + v)
                  1 2 0 1 ((1 : ℕ) : ℤ)).2.1.getD 0 0
              + (verlet_method_system (α := ℚ) (S := ℚ) (fun t y v => t + y + v)
                  1 2 0 1 ((1 : ℕ) : ℤ)).2.2.getD 0 0) :=
  (c4_verlet_step_rule (α := ℚ) (S := ℚ) (fun t y v => t + y + v) 1 2 0 1 1 0
    (by decide)).2.1

/-- Closed form of the Verlet iterates for a constant acceleration g: after i
steps the state is (t0 + i*h, y0 + (i*h) v0 + ((i*h)^2/2) g, v0 + (i*h) g). -/
lemma verlet_const_iterate [CharZero α] (g : S) (h t0 : α) (y0 v0 : S) :
    ∀ i : ℕ, (verlet_state (fun _ _ _ => g) h)^[i] (t0, y0, v0) =
      (t0 + i * h,
        y0 + ((i : α) * h) • v0 + ((1 : α) / 2 * ((i : α) * h) ^ 2) • g,
        v0 + ((i : α) * h) • g)
  | 0 => by simp
  | i + 1 => by
    rw [Function.iterate_succ_apply', verlet_const_iterate g h t0 y0 v0 i]
    simp only [verlet_state, Prod.mk.injEq]
    push_cast
    refine ⟨by ring, ?_, ?_⟩
    · match_scalars <;> (field_simp; try ring)
    · match_scalars <;> (field_simp; try ring)

/-- C5: verlet_method_system with a constant acceleration g reproduces, in
exact arithmetic, the exact kinematics y_i = y0 + v0*(i*h) + 0.5*g*(i*h)^2 at
every step i in [0, n], for every y0, v0, t0, h, n. -/
theorem c5_verlet_constant_acceleration {α : Type} [Field α] [CharZero α]
    {S : Type} [AddCommGroup S] [Module α S] (g y0 v0 : S) (t0 h : α)
    (n i : ℕ) (hi : i ≤ n) :
    (verlet_method_system (fun _ _ _ => g) y0 v0 t0 h ↑n).2.1.getD i 0 =
      y0 + ((i : α) * h) • v0 + ((1 : α) / 2 * ((i : α) * h) ^ 2) • g := by
  rw [verlet_positions_getD _ y0 v0 t0 h n i hi, verlet_const_iterate]

/-- C5 witness: acceleration g = 2, v0 = 1, h = 1 over the rationals; after
two steps the position is the exact kinematic value. -/
theorem c5_verlet_constant_acceleration_witness :
    (verlet_method_system (α := ℚ) (S := ℚ) (fun _ _ _ => 2) 0 1 0 1
        ((2 : ℕ) : ℤ)).2.1.getD 2 0 =
      0 + (((2 : ℕ) : ℚ) * 1) • 1 + ((1 : ℚ) / 2 * (((2 : ℕ) : ℚ) * 1) ^ 2) • 2 :=
  c5_verlet_constant_acceleration (α := ℚ) (S := ℚ) 2 0 1 0 1 2 2 (by decide)

/-- With the zero acceleration function and zero initial velocity, the Verlet
iterates keep the position and the velocity fixed. -/
lemma verlet_zero_iterate (t0 h : α) (Y0 : S) :
    ∀ i : ℕ, (verlet_state (fun _ _ _ => (0 : S)) h)^[i] (t0, Y0, 0) =
      (t0 + i * h, Y0, 0)
  | 0 => by simp
  | i + 1 => by
    rw [Function.iterate_succ_apply', verlet_zero_iterate t0 h Y0 i]
    refine Prod.ext ?_ ?_
    · show t0 + (i : α) * h + h = t0 + (((i : ℕ) + 1 : ℕ) : α) * h
      push_cast
      ring
    · simp [verlet_state]

/-- C6 counterexample: the claim extends the zero-derivative constancy to
verlet_method_system for every initial velocity, but with zero acceleration
and y0 = 0, v0 = 1, h = 1, the position after one step is 1, not y0 = 0. -/
theorem c6_zero_derivative_counterexample :
    ¬ ((verlet_method_system (α := ℚ) (S := ℚ) (fun _ _ _ => 0) 0 1 0 1
        1).2.1.getD 1 0 = 0) := by
  norm_num [verlet_method_system, trajOf, iterSteps, verlet_state, smul_eq_mul]

/-- C6 as amended: for the identically-zero derivative function, the six
first-order methods return states[i] = y0 for every i in [0, n]; for
verlet_method_system the zero acceleration keeps the position at y0 for every
i only when v0 = 0 (and the velocities then stay at 0 as well). -/
theorem c6_zero_derivative_constant {α : Type} [Field α] {S : Type}
    [AddCommGroup S] [Module α S] (y0 t0 h : α) (Y0 : S) (n i : ℕ)
    (hi : i ≤ n) :
    (euler_method (fun _ _ => 0) y0 t0 h ↑n).2.getD i 0 = y0 ∧
    (heun_method (fun _ _ => 0) y0 t0 h ↑n).2.getD i 0 = y0 ∧
    (runge_kutta_method (fun _ _ => 0) y0 t0 h ↑n).2.getD i 0 = y0 ∧
    (midpoint_method (fun _ _ => 0) y0 t0 h ↑n).2.getD i 0 = y0 ∧
    (euler_method_system (fun _ _ => (0 : S)) Y0 t0 h ↑n).2.getD i 0 = Y0 ∧
    (runge_kutta_method_system (fun _ _ => (0 : S)) Y0 t0 h ↑n).2.getD i 0
      = Y0 ∧
    (verlet_method_system (fun _ _ _ => (0 : S)) Y0 0 t0 h ↑n).2.1.getD i 0
      = Y0 ∧
    (verlet_method_system (fun _ _ _ => (0 : S)) Y0 0 t0 h ↑n).2.2.getD i 0
      = 0 := by
  refine ⟨?_, ?_, ?_, ?_, ?_, ?_, ?_, ?_⟩
  · rw [euler_states_getD _ y0 t0 h n i hi]
    exact iterate_invariant _ Prod.snd (fun s => by simp [euler_state]) i _
  · rw [heun_states_getD _ y0 t0 h n i hi]
    exact iterate_invariant _ Prod.snd (fun s => by simp [heun_state]) i _
  · rw [runge_kutta_states_getD _ y0 t0 h n i hi]
    exact iterate_invariant _ Prod.snd
      (fun s => by simp [runge_kutta_state]) i _
  · rw [midpoint_states_getD _ y0 t0 h n i hi]
    exact iterate_invariant _ Prod.snd (fun s => by simp [midpoint_state]) i _
  · rw [euler_system_states_getD _ Y0 t0 h n i hi]
    exact iterate_invariant _ Prod.snd
      (fun s => by simp [euler_system_state]) i _
  · rw [runge_kutta_system_states_getD _ Y0 t0 h n i hi]
    exact iterate_invariant _ Prod.snd
      (fun s => by simp [runge_kutta_system_state]) i _
  · rw [verlet_positions_getD _ Y0 0 t0 h n i hi, verlet_zero_iterate]
  · rw [verlet_velocities_getD _ Y0 0 t0 h n i hi, verlet_zero_iterate]

/-- C6 witness: concrete instance of the amended claim over the rationals. -/
theorem c6_zero_derivative_constant_witness :
    (euler_method (α := ℚ) (fun _ _ => 0) 3 0 1 ((1 : ℕ) : ℤ)).2.getD 1 0 = 3 ∧
    (verlet_method_system (α := ℚ) (S := ℚ) (fun _ _ _ => 0) 3 0 0 1
        ((1 : ℕ) : ℤ)).2.1.getD 1 0 = 3 := by
  have h := c6_zero_derivative_constant (α := ℚ) (S := ℚ) 3 0 1 3 1 1
    (by decide)
  exact ⟨h.1, h.2.2.2.2.2.2.1⟩

lemma euler_times_getD_raw (f : α → α → α) (y0 t0 h : α) (n i : ℕ)
    (hi : i ≤ n) :
    (euler_method f y0 t0 h ↑n).1.getD i 0 =
      ((euler_state f h)^[i] (t0, y0)).1 := by
  simp only [euler_method, Int.toNat_natCast]
  exact trajOf_map_getD _ _ _ n i hi _

lemma heun_times_getD_raw (f : α → α → α) (y0 t0 h : α) (n i : ℕ)
    (hi : i ≤ n) :
    (heun_method f y0 t0 h ↑n).1.getD i 0 =
      ((heun_state f h)^[i] (t0, y0)).1 := by
  simp only [heun_method, Int.toNat_natCast]
  exact trajOf_map_getD _ _ _ n i hi _

/-- C7: euler_method advances the state by y_next = y + h * f(t, y), calling
f exactly once per step; with f(t, y) = y, y0 = 1, t0 = 0, h = 1/10, n = 1 it
returns states[1] = 11/10 exactly. -/
theorem c7_euler_step_rule {α : Type} [Field α] (f : α → α → α)
    (y0 t0 h : α) (n : ℕ) :
    (∀ i : ℕ, i < n →
      (euler_method f y0 t0 h ↑n).2.getD (i + 1) 0 =
        (euler_method f y0 t0 h ↑n).2.getD i 0 +
          h * f ((euler_method f y0 t0 h ↑n).1.getD i 0)
            ((euler_method f y0 t0 h ↑n).2.getD i 0)) ∧
    (euler_method_traced f y0 t0 h ↑n).2 = n ∧
    (euler_method (fun _ y => y) (1 : ℚ) 0 (1 / 10) 1).2.getD 1 0 = 11 / 10 := by
  refine ⟨?_, ?_, ?_⟩
  · intro i hi
    rw [euler_states_getD f y0 t0 h n (i + 1) hi,
      euler_states_getD f y0 t0 h n i (le_of_lt hi),
      euler_times_getD_raw f y0 t0 h n i (le_of_lt hi),
      Function.iterate_succ_apply']
    rfl
  · simp only [euler_method_traced, Int.toNat_natCast]
    rw [iterate_count (euler_state_traced f h) (fun s => s.2.2) 1
      (fun s => rfl) n (t0, y0, 0)]
    simp
  · norm_num [euler_method, trajOf, iterSteps, euler_state]

/-- C7 witness: the step rule applied at the first step of the concrete
exponential-growth instance over the rationals. -/
theorem c7_euler_step_rule_witness :
    (euler_method (α := ℚ) (fun _ y => y) 1 0 (1 / 10) ((1 : ℕ) : ℤ)).2.getD
        (0 + 1) 0 =
      (euler_method (α := ℚ) (fun _ y => y) 1 0 (1 / 10) ((1 : ℕ) : ℤ)).2.getD
          0 0 +
        1 / 10 *
          (euler_method (α := ℚ) (fun _ y => y) 1 0 (1 / 10)
            ((1 : ℕ) : ℤ)).2.getD 0 0 :=
  (c7_euler_step_rule (α := ℚ) (fun _ y => y) 1 0 (1 / 10) 1).1 0 (by decide)

/-- C8 counterexample: the claim says heun_method evaluates f exactly twice
per step, but the loop body contains three call sites for f (f(t, y) is
evaluated in the predictor line and again in the corrector line): with one
step the instrumented heun_method performs 3 calls, not 2. -/
theorem c8_heun_calls_counterexample :
    ¬ ((heun_method_traced (α := ℚ) (fun t y => t + y) 1 0 1 1).2 = 2 * 1) := by
  decide

/-- C8 as amended: heun_method advances the state per step by the predictor
yp = y + h * f(t, y) followed by y_next = y + (h/2) * (f(t, y) + f(t+h, yp)),
for every f, y0, t0, h, n and every step; the loop body invokes f three times
per step (at only two distinct argument points, f(t, y) being computed
twice), so the instrumented call count is 3 * n, not 2 * n. -/
theorem c8_heun_step_rule {α : Type} [Field α] (f : α → α → α)
    (y0 t0 h : α) (n : ℕ) :
    (∀ i : ℕ, i < n →
      (heun_method f y0 t0 h ↑n).2.getD (i + 1) 0 =
        (heun_method f y0 t0 h ↑n).2.getD i 0 +
          h / 2 *
            (f ((heun_method f y0 t0 h ↑n).1.getD i 0)
                ((heun_method f y0 t0 h ↑n).2.getD i 0) +
              f ((heun_method f y0 t0 h ↑n).1.getD i 0 + h)
                ((heun_method f y0 t0 h ↑n).2.getD i 0 +
                  h * f ((heun_method f y0 t0 h ↑n).1.getD i 0)
                    ((heun_method f y0 t0 h ↑n).2.getD i 0)))) ∧
    (heun_method_traced f y0 t0 h ↑n).2 = 3 * n := by
  refine ⟨?_, ?_⟩
  · intro i hi
    rw [heun_states_getD f y0 t0 h n (i + 1) hi,
      heun_states_getD f y0 t0 h n i (le_of_lt hi),
      heun_times_getD_raw f y0 t0 h n i (le_of_lt hi),
      Function.iterate_succ_apply']
    rfl
  · simp only [heun_method_traced, Int.toNat_natCast]
    rw [iterate_count (heun_state_traced f h) (fun s => s.2.2) 3
      (fun s => rfl) n (t0, y0, 0)]
    ring

/-- C8 witness: the amended step rule and call count at a concrete instance
over the rationals. -/
theorem c8_heun_step_rule_witness :
    (heun_method (α := ℚ) (fun _ y => y) 1 0 1 ((1 : ℕ) : ℤ)).2.getD (0 + 1) 0 =
      (heun_method (α := ℚ) (fun _ y => y) 1 0 1 ((1 : ℕ) : ℤ)).2.getD 0 0 +
        1 / 2 *
          ((heun_method (α := ℚ) (fun _ y => y) 1 0 1 ((1 : ℕ) : ℤ)).2.getD 0 0 +
            ((heun_method (α := ℚ) (fun _ y => y) 1 0 1 ((1 : ℕ) : ℤ)).2.getD
                0 0 +
              1 * (heun_method (α := ℚ) (fun _ y => y) 1 0 1
                ((1 : ℕ) : ℤ)).2.getD 0 0)) :=
  (c8_heun_step_rule (α := ℚ) (fun _ y => y) 1 0 1 1).1 0 (by decide)

/-- C9: for f(t, y) = y with y0 = 1, t0 = 0, h = 1/10, n = 1, the scalar RK4
routine returns states[1] within 1e-6 of e^(1/10), in exact real
arithmetic. -/
theorem c9_rk4_close_to_exp :
    |(runge_kutta_method (fun _ y => y) (1 : ℝ) 0 (1 / 10) 1).2.getD 1 0 -
      Real.exp (1 / 10)| ≤ 1 / 1000000 := by
  have h10 : Real.exp (1 / 10) ^ 10 = Real.exp 1 := by
    rw [← Real.exp_nat_mul]
    norm_num
  have hl : (1.1051708 : ℝ) ≤ Real.exp (1 / 10) := by
    apply le_of_pow_le_pow_left₀ (by norm_num : (10 : ℕ) ≠ 0)
      (Real.exp_pos _).le
    rw [h10]
    calc (1.1051708 : ℝ) ^ 10 ≤ 2.7182818283 := by norm_num
      _ ≤ Real.exp 1 := le_of_lt Real.exp_one_gt_d9
  have hu : Real.exp (1 / 10) ≤ 1.1051710 := by
    apply le_of_pow_le_pow_left₀ (by norm_num : (10 : ℕ) ≠ 0)
      (by norm_num : (0 : ℝ) ≤ 1.1051710)
    rw [h10]
    calc Real.exp 1 ≤ 2.7182818286 := le_of_lt Real.exp_one_lt_d9
      _ ≤ (1.1051710 : ℝ) ^ 10 := by norm_num
  have hs : (runge_kutta_method (fun _ y => y) (1 : ℝ) 0 (1 / 10) 1).2.getD 1 0
      = 265241 / 240000 := by
    norm_num [runge_kutta_method, trajOf, iterSteps, runge_kutta_state]
  rw [hs, abs_le]
  constructor
  · linarith
  · linarith

/-- C10: for every strictly negative integer n, every method returns
singleton sequences — times = [t0], states = [y0] and, for
verlet_method_system, velocities = [v0] — because the step loop (Python
range(n)) iterates zero times. -/
theorem c10_negative_n_singletons {α : Type} [Field α] {S : Type}
    [AddCommGroup S] [Module α S] (f : α → α → α) (F : α → S → S)
    (G : α → S → S → S) (y0 t0 h : α) (Y0 V0 : S) (n : ℤ) (hn : n < 0) :
    euler_method f y0 t0 h n = ([t0], [y0]) ∧
    heun_method f y0 t0 h n = ([t0], [y0]) ∧
    runge_kutta_method f y0 t0 h n = ([t0], [y0]) ∧
    midpoint_method f y0 t0 h n = ([t0], [y0]) ∧
    euler_method_system F Y0 t0 h n = ([t0], [Y0]) ∧
    runge_kutta_method_system F Y0 t0 h n = ([t0], [Y0]) ∧
    verlet_method_system G Y0 V0 t0 h n = ([t0], [Y0], [V0]) := by
  have h0 : n.toNat = 0 := Int.toNat_eq_zero.mpr (le_of_lt hn)
  simp [euler_method, heun_method, runge_kutta_method, midpoint_method,
    euler_method_system, runge_kutta_method_system, verlet_method_system,
    trajOf, h0, iterSteps]

/-- C10 witness: n = -1 over the rationals returns the singleton
trajectories. -/
theorem c10_negative_n_singletons_witness :
    euler_method (α := ℚ) (fun _ y => y) 1 0 1 (-1) = ([0], [1]) ∧
    verlet_method_system (α := ℚ) (S := ℚ) (fun _ _ _ => 0) 2 3 0 1 (-1) =
      ([0], [2], [3]) := by
  have h := c10_negative_n_singletons (α := ℚ) (S := ℚ) (fun _ y => y)
    (fun _ y => y) (fun _ _ _ => 0) 1 0 1 2 3 (-1) (by decide)
  exact ⟨h.1, h.2.2.2.2.2.2⟩

end Stronzos
